import Mathlib

/-!
Verification development for the `tap-cbr` Singer tap
(`src/tap_cbr/__init__.py`).

The tap fetches daily currency-rate snapshots from a date-parameterized
archive endpoint, one HTTP GET per calendar day, with a bounded
exponential-backoff retry loop (`make_retry`), flattens each day's
`Valute` map into a wide record, derives a Singer schema from the last
record (`make_schema`), and emits schema, records and an updated state
(`do_sync`).

Modelling conventions of this shallow embedding:

* Well-formed ISO dates are represented by their day ordinal as `Int`;
  `datetime.date.fromisoformat` on a well-formed string is the identity of
  this representation, `+ timedelta(days=1)` is `+ 1`, and date comparison
  is integer comparison.  Malformed date strings are outside the model.
* An HTTP attempt either raises a transport exception
  (`AttemptResult.exn`, the `except` branch of `make_retry`) or yields a
  `Response`.  A `Response` carries `status_code`, `hasMarker` (whether
  `response.text` contains the Russian "no rate on this date / wrong
  date" marker string tested at lines 83 and 90), and `body`, the
  combined result of `response.json().get('Valute')`:
  `JsonBody.parseError` when `response.json()` raises (non-JSON body),
  `JsonBody.noValute` when the parsed body has no truthy `Valute` value,
  and `JsonBody.valute vs` when `Valute` is a currency map.
* Python dicts are association lists with first-match lookup;
  `dict[k] = v` overwrites in place when the key exists and appends
  otherwise (`dictSet`).
* JSON numbers are modelled as `Rat`; only equality of values matters to
  the claims.
* The network is an oracle `Int → Nat → AttemptResult`: the attempt
  result for a given day and zero-based retry index.
* Sleeps (`time.sleep`) have no observable effect in the model beyond
  the recorded backoff delays in `RetryTrace.delays`.
* A propagating Python exception is modelled by the `raised` flag of the
  run result (and `Except.error` for the per-day body).
-/

namespace TapCbr

/-- Retry count constant `N_RETRIES` (line 48). -/
def N_RETRIES : Nat := 10

/-- Base backoff delay constant `DELAY_SECONDS` (line 49). -/
def DELAY_SECONDS : Nat := 10

/-- One entry of the per-day `Valute` map.  The Python code reads it with
`.get('Value')` / `.get('Nominal')`, which yield `None` when the key is
absent, hence the `Option` fields. -/
structure ValuteEntry where
  Value : Option Rat
  Nominal : Option Rat
deriving DecidableEq

/-- Result of `response.json().get('Valute')` on a response body. -/
inductive JsonBody where
  /-- `response.json()` raises (body is not valid JSON). -/
  | parseError : JsonBody
  /-- Parsed fine but `Valute` is absent or falsy (missing key, `None`,
  or an empty map), so `if valutes:` (line 126) is false. -/
  | noValute : JsonBody
  /-- `Valute` is a currency map (association list by currency code). -/
  | valute (vs : List (String × ValuteEntry)) : JsonBody
deriving DecidableEq

/-- An HTTP response as observed by `make_retry` and `do_sync`. -/
structure Response where
  status_code : Nat
  /-- whether the "no rate on this date" marker string occurs in
  `response.text` (lines 83, 90). -/
  hasMarker : Bool
  body : JsonBody
deriving DecidableEq

/-- Outcome of one `requests.request('get', ...)` call (line 76). -/
inductive AttemptResult where
  /-- the request raised (`except Exception` branch, line 77). -/
  | exn : AttemptResult
  | resp (r : Response) : AttemptResult
deriving DecidableEq

/-- Terminal outcome of the `make_retry` loop.  In Python both `noData`
(line 92) and `exhausted` (falling off the loop, line 96) return `None`;
the constructor records which exit was taken. -/
inductive FetchOutcome where
  | success (r : Response) : FetchOutcome
  | noData : FetchOutcome
  | exhausted : FetchOutcome
deriving DecidableEq

/-- Observable trace of one `make_retry` call: the outcome, the number of
HTTP attempts made, and the backoff delays slept (in seconds, in order). -/
structure RetryTrace where
  outcome : FetchOutcome
  attempts : Nat
  delays : List Nat
deriving DecidableEq

/-- The `for retry in range(n_retries)` loop of `make_retry`
(lines 74-94).  `retry` is the current zero-based attempt index and
`fuel` the number of loop iterations left (`n_retries - retry`); the
recursion is structural on `fuel`.  Each failed attempt sleeps
`delay_seconds * 2 ** retry` (lines 79, 84). -/
def make_retry_go (fetch : Nat → AttemptResult) (delay_seconds : Nat) :
    Nat → Nat → RetryTrace
  | _, 0 => ⟨FetchOutcome.exhausted, 0, []⟩
  | retry, fuel + 1 =>
    match fetch retry with
    | AttemptResult.exn =>
      let t := make_retry_go fetch delay_seconds (retry + 1) fuel
      ⟨t.outcome, t.attempts + 1, delay_seconds * 2 ^ retry :: t.delays⟩
    | AttemptResult.resp r =>
      if r.status_code ≠ 200 ∧ r.hasMarker = false then
        let t := make_retry_go fetch delay_seconds (retry + 1) fuel
        ⟨t.outcome, t.attempts + 1, delay_seconds * 2 ^ retry :: t.delays⟩
      else if r.hasMarker then ⟨FetchOutcome.noData, 1, []⟩
      else ⟨FetchOutcome.success r, 1, []⟩

/-- `make_retry(url, params, n_retries, delay_seconds)` (lines 73-96),
abstracted over the per-attempt network behaviour `fetch`. -/
def make_retry (fetch : Nat → AttemptResult) (n_retries delay_seconds : Nat) :
    RetryTrace :=
  make_retry_go fetch delay_seconds 0 n_retries

/-- Whether an attempt result takes the retryable path of the loop:
a transport exception (line 77) or a non-200 status without the marker
text (line 83). -/
def retryable_attempt : AttemptResult → Bool
  | AttemptResult.exn => true
  | AttemptResult.resp r => (r.status_code != 200) && !r.hasMarker

/-- Values stored in a normalized record: the ISO date string of the
`date` field (represented by its day ordinal), a JSON number, or
Python `None`. -/
inductive RVal where
  | vdate (d : Int) : RVal
  | num (q : Rat) : RVal
  | null : RVal
deriving DecidableEq

/-- A normalized record: a Python dict from field name to value,
in insertion order. -/
abbrev Record := List (String × RVal)

/-- First-match association-list lookup: Python `dict.get` /
`dict[k]` on a dict (whose keys are unique by construction). -/
def lookupKey {α : Type} : List (String × α) → String → Option α
  | [], _ => none
  | (k, v) :: rest, key => if k = key then some v else lookupKey rest key

/-- Python `dict[k] = v`: overwrite in place when the key exists,
append otherwise. -/
def dictSet {α : Type} : List (String × α) → String → α → List (String × α)
  | [], k, v => [(k, v)]
  | (k', v') :: rest, k, v =>
    if k' = k then (k, v) :: rest else (k', v') :: dictSet rest k v

/-- `valutes.get(valute, {}).get('Value')` (line 130) /
`valutes[valute].get('Value')` (line 134), as a record value. -/
def getVal : Option ValuteEntry → RVal
  | some e =>
    match e.Value with
    | some q => RVal.num q
    | none => RVal.null
  | none => RVal.null

/-- `valutes.get(valute, {}).get('Nominal')` (line 131) /
`valutes[valute].get('Nominal')` (line 135), as a record value. -/
def getNom : Option ValuteEntry → RVal
  | some e =>
    match e.Nominal with
    | some q => RVal.num q
    | none => RVal.null
  | none => RVal.null

/-- Body of one iteration of the record-building loops (lines 129-131
and 133-135): set `record[c]` and `record[c + '_Nominal']` from the
day's `Valute` map `vs`. -/
def rate_step (vs : List (String × ValuteEntry)) (r : Record) (c : String) :
    Record :=
  dictSet (dictSet r c (getVal (lookupKey vs c))) (c ++ "_Nominal")
    (getNom (lookupKey vs c))

/-- Record construction for one day (lines 127-135): start from
`{'date': date_to_process}`; when the validated `currencies` value is
truthy (a non-empty list) iterate over it, otherwise iterate over the
keys of the `Valute` map. -/
def build_record (d : Int) (currencies : Option (List String))
    (vs : List (String × ValuteEntry)) : Record :=
  let record : Record := [("date", RVal.vdate d)]
  match currencies with
  | some (c :: cs) => (c :: cs).foldl (rate_step vs) record
  | _ => (vs.map Prod.fst).foldl (rate_step vs) record

/-- Schema property types produced by `make_schema`: the `date` property
`{"type": "string", "format": "date"}` and the per-currency property
`{"type": ["null", "number"]}`. -/
inductive SType where
  | dateString : SType
  | nullableNumber : SType
deriving DecidableEq

/-- A Singer schema, reduced to its `properties` dict. -/
structure Schema where
  properties : List (String × SType)
deriving DecidableEq

/-- The population loop of `make_schema` (lines 64-67): add each record
key not already present as a nullable number property. -/
def schema_fold (ps : List (String × SType)) (ks : List String) :
    List (String × SType) :=
  ks.foldl
    (fun ps k =>
      if (lookupKey ps k).isSome then ps else ps ++ [(k, SType.nullableNumber)])
    ps

/-- `make_schema(record)` (lines 52-68): start with the `date` property,
then populate the currencies from the record's keys. -/
def make_schema (record : Record) : Schema :=
  ⟨schema_fold [("date", SType.dateString)] (record.map Prod.fst)⟩

/-- The per-day body of `do_sync`'s while loop after the fetch
(lines 117-136): `make_retry` classifies the day; on a (truthy, i.e.
status-200) response, `response.json()` may raise (modelled by
`Except.error`), and a record is built only when `Valute` is truthy. -/
def process_day (oracle : Int → Nat → AttemptResult)
    (currencies : Option (List String)) (d : Int) :
    Except Unit (Option Record) :=
  match (make_retry (oracle d) N_RETRIES DELAY_SECONDS).outcome with
  | FetchOutcome.success r =>
    match r.body with
    | JsonBody.parseError => Except.error ()
    | JsonBody.noValute => Except.ok none
    | JsonBody.valute vs =>
      if vs.isEmpty then Except.ok none
      else Except.ok (some (build_record d currencies vs))
  | FetchOutcome.noData => Except.ok none
  | FetchOutcome.exhausted => Except.ok none

/-- The `while date.fromisoformat(date_to_process) <=
date.fromisoformat(date_stop)` loop (lines 111-138).  `d` is the current
date, `fuel` the number of remaining iterations (`stop + 1 - d`, clipped
at zero); the recursion is structural on `fuel`.  Returns
(raised, visited dates in order, accumulated records in order); a raise
inside the body aborts the loop with the records list lost to the
caller. -/
def sync_go (oracle : Int → Nat → AttemptResult)
    (cur : Option (List String)) (stop : Int) :
    Nat → Int → Bool × List Int × List Record
  | 0, _ => (false, [], [])
  | fuel + 1, d =>
    if d ≤ stop then
      match process_day oracle cur d with
      | Except.error _ => (true, [d], [])
      | Except.ok orec =>
        let t := sync_go oracle cur stop fuel (d + 1)
        (t.1, d :: t.2.1,
          match orec with
          | some r => r :: t.2.2
          | none => t.2.2)
    else (false, [], [])

/-- The full while loop from `date_start` (line 104) to termination. -/
def sync_while (oracle : Int → Nat → AttemptResult)
    (cur : Option (List String)) (start stop : Int) :
    Bool × List Int × List Record :=
  sync_go oracle cur stop (stop + 1 - start).toNat start

/-- The `currencies` validation (lines 98-102): anything that is not a
list is coerced to `None` with a warning; in the model the only
non-list value of `Optional[list]` is `None`, so the check is `isSome`.
Returns the validated value and whether the warning was logged. -/
def validate_currencies : Option (List String) → Option (List String) × Bool
  | none => (none, true)
  | some l => (some l, false)

/-- The incremental state dict (lines 106-109, 144-146), dates as day
ordinals. -/
structure RunState where
  date_start : Int
  date_stop : Int
deriving DecidableEq

/-- A message written to the Singer output stream. -/
inductive Msg where
  | schema (s : Schema) : Msg
  | record (r : Record) : Msg
  | state (s : RunState) : Msg
deriving DecidableEq

/-- `record['date']` parsed back with `date.fromisoformat` (line 144);
`none` models the raise when the field is missing or not a date
string. -/
def recDate (r : Record) : Option Int :=
  match lookupKey r "date" with
  | some (RVal.vdate d) => some d
  | _ => none

/-- The emission loop over accumulated records (lines 142-144): each
record is written, then `state['date_start']` is set to the day after
the record's date.  Returns the record messages actually written and
the state after the loop (`none` when the date update raised, in which
case the run aborts after the partial writes). -/
def emit_loop (st : RunState) : List Record → List Msg × Option RunState
  | [] => ([], some st)
  | r :: rest =>
    match recDate r with
    | some d =>
      let t := emit_loop ⟨d + 1, st.date_stop⟩ rest
      (Msg.record r :: t.1, t.2)
    | none => ([Msg.record r], none)

/-- The completion log message of the empty branch (line 153). -/
def nothing_done_message : String :=
  "tap completed successfully (nothing done, no new data)."

/-- The completion log message of the non-empty branch (line 149). -/
def rows_message (n : Nat) : String :=
  "tap completed successfully rows=" ++ toString n

/-- Everything `do_sync` does after currency validation, given the
validated filter: the while loop, then the emission phase (lines
140-154).  At line 141 the Python variable `record` still holds the
last record built inside the while loop, which is the last element of
`data`.  Returns (raised, visited dates, stream messages, completion
log message). -/
def sync_core (oracle : Int → Nat → AttemptResult) (date_start date_stop : Int)
    (cur : Option (List String)) :
    Bool × List Int × List Msg × Option String :=
  let t := sync_while oracle cur date_start date_stop
  if t.1 then (true, t.2.1, [], none)
  else
    match t.2.2.getLast? with
    | some lastRec =>
      let em := emit_loop ⟨date_start, date_stop⟩ t.2.2
      match em.2 with
      | some st =>
        (false, t.2.1,
          Msg.schema (make_schema lastRec) ::
            (em.1 ++ [Msg.state ⟨st.date_start, st.date_stop + 1⟩]),
          some (rows_message t.2.2.length))
      | none =>
        (true, t.2.1, Msg.schema (make_schema lastRec) :: em.1, none)
    | none => (false, t.2.1, [], some nothing_done_message)

/-- Observable result of one `do_sync` run. -/
structure RunResult where
  /-- whether the "not a list" warning of line 99 was logged. -/
  warnedCurrencies : Bool
  /-- whether the run was terminated by a propagating exception. -/
  raised : Bool
  /-- the dates fetched, in processing order. -/
  visited : List Int
  /-- the Singer messages written, in order. -/
  msgs : List Msg
  /-- the completion log message, `none` when the run raised. -/
  message : Option String
deriving DecidableEq

/-- `do_sync(date_start, date_stop, currencies)` (lines 71-154),
abstracted over the network oracle. -/
def do_sync (oracle : Int → Nat → AttemptResult) (date_start date_stop : Int)
    (currencies : Option (List String)) : RunResult :=
  let vc := validate_currencies currencies
  let c := sync_core oracle date_start date_stop vc.1
  ⟨vc.2, c.1, c.2.1, c.2.2.1, c.2.2.2⟩

/-- The canonical enumeration of the inclusive date range, used to state
the iteration claims. -/
def rangeDates (start stop : Int) : List Int :=
  (List.range (stop + 1 - start).toNat).map (fun i : Nat => start + (i : Int))

/-- Hypothesis on the network oracle: every status-200, marker-free
response body parses as JSON (so `response.json()` at line 125 cannot
raise). -/
def OracleParses (oracle : Int → Nat → AttemptResult) : Prop :=
  ∀ d i r, oracle d i = AttemptResult.resp r → r.status_code = 200 →
    r.hasMarker = false → r.body ≠ JsonBody.parseError

/-- Hypothesis on the network oracle: `Valute` maps are keyed by
three-letter currency codes, as the data model prescribes. -/
def OracleCodes (oracle : Int → Nat → AttemptResult) : Prop :=
  ∀ d i r, oracle d i = AttemptResult.resp r →
    ∀ vs, r.body = JsonBody.valute vs → ∀ k ∈ vs.map Prod.fst, k.length = 3

/-- Hypothesis on the configured filter: every entry is a three-letter
currency code, as the data model prescribes. -/
def FilterCodes : Option (List String) → Prop
  | none => True
  | some l => ∀ c ∈ l, c.length = 3

/-! ### String key helpers -/

theorem string_ne_of_length_ne {a b : String} (h : a.length ≠ b.length) :
    a ≠ b :=
  fun heq => h (congrArg String.length heq)

theorem nominal_key_length (c : String) :
    (c ++ "_Nominal").length = c.length + 8 := by
  rw [String.length_append]
  have h8 : ("_Nominal" : String).length = 8 := by decide
  rw [h8]

theorem nominal_key_ne_self (c : String) : c ++ "_Nominal" ≠ c := by
  apply string_ne_of_length_ne
  rw [nominal_key_length]
  omega

theorem nominal_key_ne_date (c : String) : c ++ "_Nominal" ≠ "date" := by
  apply string_ne_of_length_ne
  rw [nominal_key_length]
  have : ("date" : String).length = 4 := by decide
  omega

theorem code_ne_date {c : String} (h : c.length = 3) : c ≠ "date" := by
  apply string_ne_of_length_ne
  have : ("date" : String).length = 4 := by decide
  omega

theorem code_ne_nominal_key {c c' : String} (h : c.length = 3) :
    c ≠ c' ++ "_Nominal" := by
  apply string_ne_of_length_ne
  rw [nominal_key_length]
  omega

theorem nominal_key_inj {c c' : String}
    (h : c ++ "_Nominal" = c' ++ "_Nominal") : c = c' := by
  have h2 : c.data ++ ("_Nominal" : String).data =
      c'.data ++ ("_Nominal" : String).data := by
    have := congrArg String.data h
    simpa using this
  have h3 : c.data = c'.data := List.append_cancel_right h2
  cases c; cases c'; exact congrArg String.mk h3

/-! ### Association-list (Python dict) lemmas -/

theorem lookupKey_dictSet_self {α : Type} (r : List (String × α)) (k : String)
    (v : α) : lookupKey (dictSet r k v) k = some v := by
  induction r with
  | nil => simp [dictSet, lookupKey]
  | cons p rest ih =>
    obtain ⟨k', v'⟩ := p
    by_cases h : k' = k
    · subst h
      simp [dictSet, lookupKey]
    · simp [dictSet, lookupKey, h, ih]

theorem lookupKey_dictSet_ne {α : Type} (r : List (String × α))
    {k k' : String} (v : α) (h : k' ≠ k) :
    lookupKey (dictSet r k' v) k = lookupKey r k := by
  induction r with
  | nil => simp [dictSet, lookupKey, h]
  | cons p rest ih =>
    obtain ⟨k0, v0⟩ := p
    by_cases h0 : k0 = k'
    · subst h0
      simp [dictSet, lookupKey, h]
    · by_cases h1 : k0 = k
      · subst h1
        simp [dictSet, lookupKey, h0, Ne.symm h0]
      · simp [dictSet, lookupKey, h0, h1, ih]

theorem lookupKey_isSome_dictSet {α : Type} (r : List (String × α))
    {x : String} (k : String) (v : α) (h : (lookupKey r x).isSome) :
    (lookupKey (dictSet r k v) x).isSome := by
  by_cases hk : k = x
  · subst hk
    simp [lookupKey_dictSet_self]
  · rwa [lookupKey_dictSet_ne _ _ hk]

theorem lookupKey_append {α : Type} (ps qs : List (String × α)) (k : String) :
    lookupKey (ps ++ qs) k =
      match lookupKey ps k with
      | some v => some v
      | none => lookupKey qs k := by
  induction ps with
  | nil => simp [lookupKey]
  | cons p rest ih =>
    obtain ⟨k0, v0⟩ := p
    by_cases h : k0 = k
    · simp [lookupKey, h]
    · simp [lookupKey, h, ih]

/-! ### Record-building lemmas -/

theorem foldl_rate_step_untouched (vs : List (String × ValuteEntry))
    (L : List String) (r : Record) {x : String}
    (hx : ∀ c ∈ L, c ≠ x ∧ c ++ "_Nominal" ≠ x) :
    lookupKey (L.foldl (rate_step vs) r) x = lookupKey r x := by
  induction L generalizing r with
  | nil => rfl
  | cons c0 L ih =>
    have h0 := hx c0 (List.mem_cons_self c0 L)
    rw [List.foldl_cons, ih _ (fun c hc => hx c (List.mem_cons_of_mem _ hc))]
    unfold rate_step
    rw [lookupKey_dictSet_ne _ _ h0.2, lookupKey_dictSet_ne _ _ h0.1]

theorem foldl_rate_step_mem (vs : List (String × ValuteEntry))
    (L : List String) (r : Record) (hL : ∀ c ∈ L, c.length = 3) :
    ∀ c ∈ L,
      lookupKey (L.foldl (rate_step vs) r) c =
        some (getVal (lookupKey vs c)) ∧
      lookupKey (L.foldl (rate_step vs) r) (c ++ "_Nominal") =
        some (getNom (lookupKey vs c)) := by
  induction L generalizing r with
  | nil => intro c hc; simp at hc
  | cons c0 L ih =>
    intro c hc
    rw [List.foldl_cons]
    by_cases hmem : c ∈ L
    · exact ih _ (fun c' h' => hL c' (List.mem_cons_of_mem _ h')) c hmem
    · have hc0 : c = c0 := by
        rcases List.mem_cons.mp hc with h | h
        · exact h
        · exact absurd h hmem
      subst hc0
      have hnotin : c ∉ L := hmem
      have hlen : c.length = 3 := hL c (List.mem_cons_self c L)
      constructor
      · rw [foldl_rate_step_untouched vs L _ (fun cc hcc =>
          ⟨fun h => hnotin (by rw [← h]; exact hcc),
           Ne.symm (code_ne_nominal_key hlen)⟩)]
        unfold rate_step
        rw [lookupKey_dictSet_ne _ _ (nominal_key_ne_self c),
          lookupKey_dictSet_self]
      · rw [foldl_rate_step_untouched vs L _ (fun cc hcc =>
          ⟨code_ne_nominal_key (hL cc (List.mem_cons_of_mem _ hcc)),
           fun h => hnotin (by rw [← nominal_key_inj h]; exact hcc)⟩)]
        unfold rate_step
        rw [lookupKey_dictSet_self]

theorem foldl_rate_step_extra_key (vs : List (String × ValuteEntry))
    (L : List String) (r : Record) (hL : L ≠ []) :
    ∃ k, (lookupKey (L.foldl (rate_step vs) r) k).isSome ∧ k ≠ "date" := by
  rcases List.eq_nil_or_concat L with h | ⟨L0, a, h⟩
  · exact absurd h hL
  · subst h
    refine ⟨a ++ "_Nominal", ?_, nominal_key_ne_date a⟩
    rw [List.concat_eq_append, List.foldl_append]
    simp only [List.foldl_cons, List.foldl_nil]
    unfold rate_step
    rw [lookupKey_dictSet_self]
    rfl

theorem build_record_date (d : Int) (cur : Option (List String))
    (vs : List (String × ValuteEntry))
    (hcur : ∀ l, cur = some l → ∀ c ∈ l, c.length = 3)
    (hvs : ∀ k ∈ vs.map Prod.fst, k.length = 3) :
    lookupKey (build_record d cur vs) "date" = some (RVal.vdate d) := by
  have hbase : lookupKey [("date", RVal.vdate d)] "date" =
      some (RVal.vdate d) := by simp [lookupKey]
  match cur with
  | none =>
    unfold build_record
    rw [foldl_rate_step_untouched vs _ _ (fun k hk =>
      ⟨code_ne_date (hvs k hk), nominal_key_ne_date k⟩)]
    exact hbase
  | some [] =>
    unfold build_record
    rw [foldl_rate_step_untouched vs _ _ (fun k hk =>
      ⟨code_ne_date (hvs k hk), nominal_key_ne_date k⟩)]
    exact hbase
  | some (c :: cs) =>
    unfold build_record
    rw [foldl_rate_step_untouched vs _ _ (fun k hk =>
      ⟨code_ne_date (hcur _ rfl k hk), nominal_key_ne_date k⟩)]
    exact hbase

theorem build_record_recDate (d : Int) (cur : Option (List String))
    (vs : List (String × ValuteEntry))
    (hcur : ∀ l, cur = some l → ∀ c ∈ l, c.length = 3)
    (hvs : ∀ k ∈ vs.map Prod.fst, k.length = 3) :
    recDate (build_record d cur vs) = some d := by
  unfold recDate
  rw [build_record_date d cur vs hcur hvs]

theorem build_record_filter (d : Int) (c0 : String) (cs : List String)
    (vs : List (String × ValuteEntry))
    (hcodes : ∀ c ∈ c0 :: cs, c.length = 3) :
    ∀ c ∈ c0 :: cs,
      lookupKey (build_record d (some (c0 :: cs)) vs) c =
        some (getVal (lookupKey vs c)) ∧
      lookupKey (build_record d (some (c0 :: cs)) vs) (c ++ "_Nominal") =
        some (getNom (lookupKey vs c)) := by
  unfold build_record
  exact foldl_rate_step_mem vs (c0 :: cs) _ hcodes

theorem build_record_all (d : Int) (cur : Option (List String))
    (vs : List (String × ValuteEntry))
    (hcur : cur = none ∨ cur = some [])
    (hvs : ∀ k ∈ vs.map Prod.fst, k.length = 3) :
    ∀ k ∈ vs.map Prod.fst,
      lookupKey (build_record d cur vs) k =
        some (getVal (lookupKey vs k)) ∧
      lookupKey (build_record d cur vs) (k ++ "_Nominal") =
        some (getNom (lookupKey vs k)) := by
  rcases hcur with h | h
  · subst h
    unfold build_record
    exact foldl_rate_step_mem vs _ _ hvs
  · subst h
    unfold build_record
    exact foldl_rate_step_mem vs _ _ hvs

theorem build_record_extra_key (d : Int) (cur : Option (List String))
    (vs : List (String × ValuteEntry)) (hvs : vs ≠ []) :
    ∃ k, (lookupKey (build_record d cur vs) k).isSome ∧ k ≠ "date" := by
  have hkeys : vs.map Prod.fst ≠ [] := by
    intro h
    exact hvs (List.map_eq_nil_iff.mp h)
  match cur with
  | none => exact foldl_rate_step_extra_key vs _ _ hkeys
  | some [] => exact foldl_rate_step_extra_key vs _ _ hkeys
  | some (c :: cs) =>
    exact foldl_rate_step_extra_key vs _ _ (List.cons_ne_nil c cs)

/-! ### Retry-loop lemmas -/

theorem make_retry_go_zero (fetch : Nat → AttemptResult) (ds retry : Nat) :
    make_retry_go fetch ds retry 0 =
      ⟨FetchOutcome.exhausted, 0, []⟩ := rfl

theorem make_retry_go_exn (fetch : Nat → AttemptResult) (ds retry fuel : Nat)
    (h : fetch retry = AttemptResult.exn) :
    make_retry_go fetch ds retry (fuel + 1) =
      ⟨(make_retry_go fetch ds (retry + 1) fuel).outcome,
       (make_retry_go fetch ds (retry + 1) fuel).attempts + 1,
       ds * 2 ^ retry :: (make_retry_go fetch ds (retry + 1) fuel).delays⟩ := by
  conv_lhs => unfold make_retry_go
  rw [h]

theorem make_retry_go_retryable_resp (fetch : Nat → AttemptResult)
    (ds retry fuel : Nat) (r : Response)
    (h : fetch retry = AttemptResult.resp r)
    (hc : r.status_code ≠ 200 ∧ r.hasMarker = false) :
    make_retry_go fetch ds retry (fuel + 1) =
      ⟨(make_retry_go fetch ds (retry + 1) fuel).outcome,
       (make_retry_go fetch ds (retry + 1) fuel).attempts + 1,
       ds * 2 ^ retry :: (make_retry_go fetch ds (retry + 1) fuel).delays⟩ := by
  conv_lhs => unfold make_retry_go
  rw [h]
  obtain ⟨h1, h2⟩ := hc
  simp [h1, h2]

theorem make_retry_go_marker (fetch : Nat → AttemptResult)
    (ds retry fuel : Nat) (r : Response)
    (h : fetch retry = AttemptResult.resp r) (hm : r.hasMarker = true) :
    make_retry_go fetch ds retry (fuel + 1) =
      ⟨FetchOutcome.noData, 1, []⟩ := by
  conv_lhs => unfold make_retry_go
  rw [h]
  simp [hm]

theorem make_retry_go_success_resp (fetch : Nat → AttemptResult)
    (ds retry fuel : Nat) (r : Response)
    (h : fetch retry = AttemptResult.resp r) (hm : r.hasMarker = false)
    (hs : r.status_code = 200) :
    make_retry_go fetch ds retry (fuel + 1) =
      ⟨FetchOutcome.success r, 1, []⟩ := by
  conv_lhs => unfold make_retry_go
  rw [h]
  simp [hs, hm]

theorem make_retry_go_attempts_le (fetch : Nat → AttemptResult) (ds : Nat) :
    ∀ fuel retry, (make_retry_go fetch ds retry fuel).attempts ≤ fuel := by
  intro fuel
  induction fuel with
  | zero => intro retry; simp [make_retry_go_zero]
  | succ fuel ih =>
    intro retry
    match hf : fetch retry with
    | AttemptResult.exn =>
      rw [make_retry_go_exn fetch ds retry fuel hf]
      exact Nat.succ_le_succ (ih (retry + 1))
    | AttemptResult.resp r =>
      by_cases hm : r.hasMarker = true
      · rw [make_retry_go_marker fetch ds retry fuel r hf hm]
        exact Nat.succ_le_succ (Nat.zero_le fuel)
      · have hmf : r.hasMarker = false := Bool.not_eq_true _ ▸ hm
        by_cases hs : r.status_code = 200
        · rw [make_retry_go_success_resp fetch ds retry fuel r hf hmf hs]
          exact Nat.succ_le_succ (Nat.zero_le fuel)
        · rw [make_retry_go_retryable_resp fetch ds retry fuel r hf ⟨hs, hmf⟩]
          exact Nat.succ_le_succ (ih (retry + 1))

theorem delays_expected_cons (ds retry n : Nat) :
    (List.range (n + 1)).map (fun i => ds * 2 ^ (retry + i)) =
      ds * 2 ^ retry ::
        (List.range n).map (fun i => ds * 2 ^ (retry + 1 + i)) := by
  have htail : (List.range n).map
      ((fun i => ds * 2 ^ (retry + i)) ∘ Nat.succ) =
      (List.range n).map (fun i => ds * 2 ^ (retry + 1 + i)) := by
    apply List.map_congr_left
    intro i _
    simp only [Function.comp_apply]
    have h2 : retry + Nat.succ i = retry + 1 + i := by omega
    rw [h2]
  rw [List.range_succ_eq_map, List.map_cons, List.map_map, htail,
    Nat.add_zero]

theorem make_retry_go_delays_shape (fetch : Nat → AttemptResult) (ds : Nat) :
    ∀ fuel retry,
      (make_retry_go fetch ds retry fuel).delays =
        (List.range (make_retry_go fetch ds retry fuel).delays.length).map
          (fun i => ds * 2 ^ (retry + i)) := by
  intro fuel
  induction fuel with
  | zero => intro retry; simp [make_retry_go_zero]
  | succ fuel ih =>
    intro retry
    match hf : fetch retry with
    | AttemptResult.exn =>
      rw [make_retry_go_exn fetch ds retry fuel hf]
      simp only [List.length_cons, delays_expected_cons]
      rw [← ih (retry + 1)]
    | AttemptResult.resp r =>
      by_cases hm : r.hasMarker = true
      · rw [make_retry_go_marker fetch ds retry fuel r hf hm]
        simp
      · have hmf : r.hasMarker = false := Bool.not_eq_true _ ▸ hm
        by_cases hs : r.status_code = 200
        · rw [make_retry_go_success_resp fetch ds retry fuel r hf hmf hs]
          simp
        · rw [make_retry_go_retryable_resp fetch ds retry fuel r hf ⟨hs, hmf⟩]
          simp only [List.length_cons, delays_expected_cons]
          rw [← ih (retry + 1)]

theorem make_retry_go_exhausted (fetch : Nat → AttemptResult) (ds : Nat) :
    ∀ fuel retry,
      (∀ i, retry ≤ i → i < retry + fuel →
        retryable_attempt (fetch i) = true) →
      make_retry_go fetch ds retry fuel =
        ⟨FetchOutcome.exhausted, fuel,
          (List.range fuel).map (fun i => ds * 2 ^ (retry + i))⟩ := by
  intro fuel
  induction fuel with
  | zero => intro retry _; simp [make_retry_go_zero]
  | succ fuel ih =>
    intro retry h
    have hr := h retry (Nat.le_refl retry) (by omega)
    have hrec := ih (retry + 1) (fun i h1 h2 => h i (by omega) (by omega))
    match hf : fetch retry with
    | AttemptResult.exn =>
      rw [make_retry_go_exn fetch ds retry fuel hf, hrec,
        delays_expected_cons]
    | AttemptResult.resp r =>
      rw [hf] at hr
      simp only [retryable_attempt, Bool.and_eq_true, bne_iff_ne,
        Bool.not_eq_true'] at hr
      rw [make_retry_go_retryable_resp fetch ds retry fuel r hf hr, hrec,
        delays_expected_cons]

theorem make_retry_go_success (fetch : Nat → AttemptResult) (ds : Nat) :
    ∀ fuel retry r,
      (make_retry_go fetch ds retry fuel).outcome = FetchOutcome.success r →
      r.status_code = 200 ∧ r.hasMarker = false ∧
        ∃ i, fetch i = AttemptResult.resp r := by
  intro fuel
  induction fuel with
  | zero => intro retry r h; simp [make_retry_go_zero] at h
  | succ fuel ih =>
    intro retry r h
    match hf : fetch retry with
    | AttemptResult.exn =>
      rw [make_retry_go_exn fetch ds retry fuel hf] at h
      exact ih (retry + 1) r h
    | AttemptResult.resp r0 =>
      by_cases hm : r0.hasMarker = true
      · rw [make_retry_go_marker fetch ds retry fuel r0 hf hm] at h
        simp at h
      · have hmf : r0.hasMarker = false := Bool.not_eq_true _ ▸ hm
        by_cases hs : r0.status_code = 200
        · rw [make_retry_go_success_resp fetch ds retry fuel r0 hf hmf hs] at h
          simp only [FetchOutcome.success.injEq] at h
          subst h
          exact ⟨hs, hmf, retry, hf⟩
        · rw [make_retry_go_retryable_resp fetch ds retry fuel r0 hf
            ⟨hs, hmf⟩] at h
          exact ih (retry + 1) r h

/-! ### Schema lemmas -/

theorem schema_fold_nil (ps : List (String × SType)) :
    schema_fold ps [] = ps := rfl

theorem schema_fold_cons (ps : List (String × SType)) (k : String)
    (ks : List String) :
    schema_fold ps (k :: ks) =
      schema_fold
        (if (lookupKey ps k).isSome then ps
         else ps ++ [(k, SType.nullableNumber)]) ks := rfl

theorem schema_fold_preserve (ks : List String) :
    ∀ ps k v, lookupKey ps k = some v →
      lookupKey (schema_fold ps ks) k = some v := by
  induction ks with
  | nil => intro ps k v h; exact h
  | cons k0 ks ih =>
    intro ps k v h
    rw [schema_fold_cons]
    apply ih
    by_cases hc : (lookupKey ps k0).isSome
    · simpa [hc] using h
    · rw [if_neg hc, lookupKey_append, h]

theorem schema_fold_mem (ks : List String) :
    ∀ ps k, k ∈ ks → lookupKey ps k = none →
      lookupKey (schema_fold ps ks) k = some SType.nullableNumber := by
  induction ks with
  | nil => intro ps k h; simp at h
  | cons k0 ks ih =>
    intro ps k hk hnone
    rw [schema_fold_cons]
    by_cases hkk : k = k0
    · subst hkk
      have hns : ¬(lookupKey ps k).isSome := by simp [hnone]
      rw [if_neg hns]
      apply schema_fold_preserve
      rw [lookupKey_append, hnone]
      simp [lookupKey]
    · have hmem : k ∈ ks := by
        rcases List.mem_cons.mp hk with h | h
        · exact absurd h hkk
        · exact h
      by_cases hc : (lookupKey ps k0).isSome
      · rw [if_pos hc]
        exact ih ps k hmem hnone
      · rw [if_neg hc]
        apply ih _ k hmem
        rw [lookupKey_append, hnone]
        simp [lookupKey, Ne.symm hkk]

theorem schema_fold_sub (ks : List String) :
    ∀ ps k v, lookupKey (schema_fold ps ks) k = some v →
      lookupKey ps k = some v ∨ (k ∈ ks ∧ v = SType.nullableNumber) := by
  induction ks with
  | nil => intro ps k v h; exact Or.inl h
  | cons k0 ks ih =>
    intro ps k v h
    rw [schema_fold_cons] at h
    rcases ih _ k v h with h2 | h2
    · by_cases hc : (lookupKey ps k0).isSome
      · rw [if_pos hc] at h2
        exact Or.inl h2
      · rw [if_neg hc, lookupKey_append] at h2
        revert h2
        match hp : lookupKey ps k with
        | some v' => intro h2; exact Or.inl h2
        | none =>
          intro h2
          simp only [lookupKey] at h2
          by_cases hk : k0 = k
          · simp only [hk, if_true, Option.some.injEq] at h2
            exact Or.inr ⟨hk ▸ List.mem_cons_self k0 ks, h2.symm⟩
          · simp [hk] at h2
    · exact Or.inr ⟨List.mem_cons_of_mem _ h2.1, h2.2⟩

theorem make_schema_date (r : Record) :
    lookupKey (make_schema r).properties "date" = some SType.dateString := by
  unfold make_schema
  apply schema_fold_preserve
  simp [lookupKey]

theorem make_schema_key (r : Record) (k : String) (hk : k ∈ r.map Prod.fst)
    (hne : k ≠ "date") :
    lookupKey (make_schema r).properties k = some SType.nullableNumber := by
  unfold make_schema
  apply schema_fold_mem _ _ _ hk
  simp [lookupKey, Ne.symm hne]

theorem make_schema_sub (r : Record) (k : String) (v : SType)
    (h : lookupKey (make_schema r).properties k = some v) :
    k = "date" ∨ k ∈ r.map Prod.fst := by
  unfold make_schema at h
  rcases schema_fold_sub _ _ _ _ h with h2 | h2
  · left
    by_cases hk : "date" = k
    · exact hk.symm
    · simp [lookupKey, hk] at h2
  · exact Or.inr h2.1

/-! ### Message counting -/

/-- Whether a stream message is a schema message. -/
def isSchemaMsg : Msg → Bool
  | Msg.schema _ => true
  | _ => false

/-- Whether a stream message is a state message. -/
def isStateMsg : Msg → Bool
  | Msg.state _ => true
  | _ => false

theorem countP_schema_of_stream (s : Schema) (l : List Record)
    (st : RunState) :
    (Msg.schema s :: (l.map Msg.record ++ [Msg.state st])).countP
      isSchemaMsg = 1 := by
  have h : ∀ l2 : List Record, (l2.map Msg.record).countP isSchemaMsg = 0 := by
    intro l2
    induction l2 with
    | nil => simp
    | cons r rest ih => simp [List.countP_cons, isSchemaMsg, ih]
  simp [List.countP_cons, List.countP_append, isSchemaMsg, h]

theorem countP_state_of_stream (s : Schema) (l : List Record)
    (st : RunState) :
    (Msg.schema s :: (l.map Msg.record ++ [Msg.state st])).countP
      isStateMsg = 1 := by
  have h : ∀ l2 : List Record, (l2.map Msg.record).countP isStateMsg = 0 := by
    intro l2
    induction l2 with
    | nil => simp
    | cons r rest ih => simp [List.countP_cons, isStateMsg, ih]
  simp [List.countP_cons, List.countP_append, isStateMsg, h]

/-! ### Sync-loop lemmas -/

theorem sync_go_zero (oracle : Int → Nat → AttemptResult)
    (cur : Option (List String)) (stop d : Int) :
    sync_go oracle cur stop 0 d = (false, [], []) := rfl

theorem sync_go_stop (oracle : Int → Nat → AttemptResult)
    (cur : Option (List String)) (stop : Int) (fuel : Nat) (d : Int)
    (h : ¬d ≤ stop) :
    sync_go oracle cur stop (fuel + 1) d = (false, [], []) := by
  conv_lhs => unfold sync_go
  rw [if_neg h]

theorem sync_go_step (oracle : Int → Nat → AttemptResult)
    (cur : Option (List String)) (stop : Int) (fuel : Nat) (d : Int)
    (h : d ≤ stop) :
    sync_go oracle cur stop (fuel + 1) d =
      match process_day oracle cur d with
      | Except.error _ => (true, [d], [])
      | Except.ok orec =>
        let t := sync_go oracle cur stop fuel (d + 1)
        (t.1, d :: t.2.1,
          match orec with
          | some r => r :: t.2.2
          | none => t.2.2) := by
  conv_lhs => unfold sync_go
  rw [if_pos h]

/-- Classification of one day's processing under a parse-safe oracle:
either the day is skipped, or a record is built from a non-empty
`Valute` map that came from an actual oracle response. -/
theorem process_day_classify (oracle : Int → Nat → AttemptResult)
    (cur : Option (List String)) (d : Int) (hp : OracleParses oracle) :
    process_day oracle cur d = Except.ok none ∨
      ∃ vs, vs ≠ [] ∧
        (∃ i rr, oracle d i = AttemptResult.resp rr ∧
          rr.body = JsonBody.valute vs) ∧
        process_day oracle cur d = Except.ok (some (build_record d cur vs)) := by
  match ho : (make_retry (oracle d) N_RETRIES DELAY_SECONDS).outcome with
  | FetchOutcome.noData => exact Or.inl (by simp [process_day, ho])
  | FetchOutcome.exhausted => exact Or.inl (by simp [process_day, ho])
  | FetchOutcome.success r =>
    obtain ⟨hs, hm, i, hi⟩ := make_retry_go_success (oracle d) DELAY_SECONDS
      N_RETRIES 0 r ho
    have hbody : r.body ≠ JsonBody.parseError := hp d i r hi hs hm
    match hb : r.body with
    | JsonBody.parseError => exact absurd hb hbody
    | JsonBody.noValute => exact Or.inl (by simp [process_day, ho, hb])
    | JsonBody.valute vs =>
      by_cases hvs : vs.isEmpty
      · exact Or.inl (by simp [process_day, ho, hb, hvs])
      · refine Or.inr ⟨vs, ?_, ⟨i, r, hi, hb⟩,
          by simp [process_day, ho, hb, hvs]⟩
        intro hnil
        exact hvs (by simp [hnil])

theorem range_map_shift (d : Int) (n : Nat) :
    (List.range (n + 1)).map (fun i : Nat => d + (i : Int)) =
      d :: (List.range n).map (fun i : Nat => (d + 1) + (i : Int)) := by
  have htail : (List.range n).map ((fun i : Nat => d + (i : Int)) ∘ Nat.succ) =
      (List.range n).map (fun i : Nat => (d + 1) + (i : Int)) := by
    apply List.map_congr_left
    intro i _
    simp only [Function.comp_apply]
    push_cast
    ring
  rw [List.range_succ_eq_map, List.map_cons, List.map_map, htail]
  simp

/-- Invariant of the while loop under a parse-safe oracle: it never
raises, it visits exactly the dates `d, d+1, ...` for `fuel` steps, and
every accumulated record is a `build_record` of some in-range day built
from a non-empty oracle-provided `Valute` map. -/
theorem sync_go_spec (oracle : Int → Nat → AttemptResult)
    (cur : Option (List String)) (stop : Int) (hp : OracleParses oracle) :
    ∀ fuel (d : Int), fuel = (stop + 1 - d).toNat →
      (sync_go oracle cur stop fuel d).1 = false ∧
      (sync_go oracle cur stop fuel d).2.1 =
        (List.range fuel).map (fun i : Nat => d + (i : Int)) ∧
      ∀ r ∈ (sync_go oracle cur stop fuel d).2.2,
        ∃ dd vs, d ≤ dd ∧ dd ≤ stop ∧ vs ≠ [] ∧
          (∃ i rr, oracle dd i = AttemptResult.resp rr ∧
            rr.body = JsonBody.valute vs) ∧
          r = build_record dd cur vs := by
  intro fuel
  induction fuel with
  | zero =>
    intro d _
    refine ⟨rfl, by simp [sync_go_zero], ?_⟩
    intro r hr
    simp [sync_go_zero] at hr
  | succ fuel ih =>
    intro d hfuel
    have hd : d ≤ stop := by omega
    have hnext : fuel = (stop + 1 - (d + 1)).toNat := by omega
    have hrec := ih (d + 1) hnext
    rw [sync_go_step oracle cur stop fuel d hd]
    rcases process_day_classify oracle cur d hp with hpd | ⟨vs, hvs, hprov, hpd⟩
    · rw [hpd]
      refine ⟨hrec.1, ?_, ?_⟩
      · simp only [range_map_shift]
        rw [hrec.2.1]
      · intro r hr
        obtain ⟨dd, vs, h1, h2, h3⟩ := hrec.2.2 r hr
        exact ⟨dd, vs, by omega, h2, h3⟩
    · rw [hpd]
      refine ⟨hrec.1, ?_, ?_⟩
      · simp only [range_map_shift]
        rw [hrec.2.1]
      · intro r hr
        rcases List.mem_cons.mp hr with h | h
        · exact ⟨d, vs, le_refl d, hd, hvs, hprov, h⟩
        · obtain ⟨dd, vs2, h1, h2, h3⟩ := hrec.2.2 r h
          exact ⟨dd, vs2, by omega, h2, h3⟩

/-! ### Emission lemmas -/

theorem getLast?_mem_of_eq {α : Type} :
    ∀ (l : List α) (a : α), l.getLast? = some a → a ∈ l := by
  intro l
  induction l with
  | nil => intro a h; simp at h
  | cons x xs ih =>
    intro a h
    match xs with
    | [] =>
      simp only [List.getLast?_singleton, Option.some.injEq] at h
      simp [h]
    | y :: ys =>
      rw [List.getLast?_cons_cons] at h
      exact List.mem_cons_of_mem _ (ih a h)

/-- The emission loop under records whose `date` field is an intact
date: every record message is written, no raise, the final state keeps
`date_stop` and points `date_start` one past the last record's date. -/
theorem emit_loop_ok :
    ∀ (data : List Record) (st : RunState),
      (∀ r ∈ data, (recDate r).isSome) →
      ∃ st2, emit_loop st data = (data.map Msg.record, some st2) ∧
        st2.date_stop = st.date_stop ∧
        ((data = [] ∧ st2 = st) ∨
          ∃ lr dl, data.getLast? = some lr ∧ recDate lr = some dl ∧
            st2.date_start = dl + 1) := by
  intro data
  induction data with
  | nil =>
    intro st _
    exact ⟨st, rfl, rfl, Or.inl ⟨rfl, rfl⟩⟩
  | cons r rest ih =>
    intro st h
    have hr := h r (List.mem_cons_self r rest)
    obtain ⟨dr, hdr⟩ := Option.isSome_iff_exists.mp hr
    obtain ⟨st2, heq, hstop, hcase⟩ :=
      ih ⟨dr + 1, st.date_stop⟩ (fun r2 h2 => h r2 (List.mem_cons_of_mem _ h2))
    refine ⟨st2, ?_, hstop, ?_⟩
    · simp [emit_loop, hdr, heq]
    · rcases hcase with ⟨hnil, hst⟩ | ⟨lr, dl, hlast, hrec, hst⟩
      · subst hnil
        exact Or.inr ⟨r, dr, rfl, hdr, by rw [hst]⟩
      · match rest, hlast with
        | y :: ys, hlast =>
          exact Or.inr ⟨lr, dl, by rw [List.getLast?_cons_cons]; exact hlast,
            hrec, hst⟩

/-! ### Assembled run lemmas -/

theorem do_sync_eq (oracle : Int → Nat → AttemptResult) (a b : Int)
    (currencies : Option (List String)) :
    do_sync oracle a b currencies =
      ⟨(validate_currencies currencies).2,
       (sync_core oracle a b (validate_currencies currencies).1).1,
       (sync_core oracle a b (validate_currencies currencies).1).2.1,
       (sync_core oracle a b (validate_currencies currencies).1).2.2.1,
       (sync_core oracle a b (validate_currencies currencies).1).2.2.2⟩ := rfl

theorem sync_core_of_empty (oracle : Int → Nat → AttemptResult) (a b : Int)
    (cur : Option (List String))
    (h1 : (sync_while oracle cur a b).1 = false)
    (h2 : (sync_while oracle cur a b).2.2 = []) :
    sync_core oracle a b cur =
      (false, (sync_while oracle cur a b).2.1, [],
        some nothing_done_message) := by
  simp only [sync_core]
  rw [h1]
  simp only [Bool.false_eq_true, if_false, h2, List.getLast?_nil]

theorem sync_core_of_last (oracle : Int → Nat → AttemptResult) (a b : Int)
    (cur : Option (List String)) (lr : Record) (ms : List Msg)
    (st2 : RunState)
    (h1 : (sync_while oracle cur a b).1 = false)
    (h2 : (sync_while oracle cur a b).2.2.getLast? = some lr)
    (h3 : emit_loop ⟨a, b⟩ (sync_while oracle cur a b).2.2 = (ms, some st2)) :
    sync_core oracle a b cur =
      (false, (sync_while oracle cur a b).2.1,
        Msg.schema (make_schema lr) ::
          (ms ++ [Msg.state ⟨st2.date_start, st2.date_stop + 1⟩]),
        some (rows_message (sync_while oracle cur a b).2.2.length)) := by
  simp only [sync_core]
  rw [h1]
  simp only [Bool.false_eq_true, if_false, h2, h3]

theorem filter_codes_validate (cur : Option (List String))
    (hc : FilterCodes cur) : FilterCodes (validate_currencies cur).1 := by
  match cur with
  | none => exact trivial
  | some l => exact hc

/-- Master specification of `sync_core` under a well-behaved oracle and
filter: the run completes without raising, visits exactly the range, and
either emits nothing with the "nothing done" message, or emits
schema-then-records-then-state with the state computed from the last
record's date and the original stop date. -/
theorem sync_core_spec (oracle : Int → Nat → AttemptResult) (a b : Int)
    (cur : Option (List String)) (hp : OracleParses oracle)
    (hk : OracleCodes oracle) (hc : FilterCodes cur) :
    (sync_core oracle a b cur).1 = false ∧
    (sync_core oracle a b cur).2.1 = rangeDates a b ∧
    (((sync_while oracle cur a b).2.2 = [] ∧
        (sync_core oracle a b cur).2.2.1 = [] ∧
        (sync_core oracle a b cur).2.2.2 = some nothing_done_message) ∨
      (∃ lr dl, (sync_while oracle cur a b).2.2.getLast? = some lr ∧
        recDate lr = some dl ∧ a ≤ dl ∧ dl ≤ b ∧
        (sync_core oracle a b cur).2.2.1 =
          Msg.schema (make_schema lr) ::
            ((sync_while oracle cur a b).2.2.map Msg.record ++
              [Msg.state ⟨dl + 1, b + 1⟩]) ∧
        (sync_core oracle a b cur).2.2.2 =
          some (rows_message (sync_while oracle cur a b).2.2.length))) := by
  have hcur : ∀ l, cur = some l → ∀ c ∈ l, c.length = 3 := by
    intro l hl
    subst hl
    exact hc
  have hsync := sync_go_spec oracle cur b hp ((b + 1 - a).toNat) a rfl
  have hraised : (sync_while oracle cur a b).1 = false := hsync.1
  have hrecs : ∀ r ∈ (sync_while oracle cur a b).2.2,
      ∃ dd, a ≤ dd ∧ dd ≤ b ∧ recDate r = some dd := by
    intro r hr
    obtain ⟨dd, vs, h1, h2, _, ⟨i, rr, hres, hbody⟩, hbuild⟩ :=
      hsync.2.2 r hr
    have hkeys : ∀ k ∈ vs.map Prod.fst, k.length = 3 :=
      hk dd i rr hres vs hbody
    subst hbuild
    exact ⟨dd, h1, h2, build_record_recDate dd cur vs hcur hkeys⟩
  match hl : (sync_while oracle cur a b).2.2.getLast? with
  | none =>
    have hnil : (sync_while oracle cur a b).2.2 = [] :=
      List.getLast?_eq_none_iff.mp hl
    rw [sync_core_of_empty oracle a b cur hraised hnil]
    exact ⟨rfl, hsync.2.1, Or.inl ⟨hnil, rfl, rfl⟩⟩
  | some lr =>
    obtain ⟨st2, hemit, hstop, hcase⟩ :=
      emit_loop_ok (sync_while oracle cur a b).2.2 ⟨a, b⟩
        (fun r hr => by
          obtain ⟨dd, _, _, hdd⟩ := hrecs r hr
          simp [hdd])
    rcases hcase with ⟨hnil, _⟩ | ⟨lr2, dl, hlast2, hrec2, hst⟩
    · rw [hnil] at hl
      simp at hl
    · have hlr : lr2 = lr := by
        rw [hlast2] at hl
        exact Option.some.inj hl
      subst hlr
      obtain ⟨dd, hdd1, hdd2, hddrec⟩ :=
        hrecs lr2 (getLast?_mem_of_eq _ _ hl)
      have hdl : dl = dd := by
        rw [hrec2] at hddrec
        exact (Option.some.injEq _ _).mp hddrec
      subst hdl
      rw [sync_core_of_last oracle a b cur lr2 _ st2 hraised hl hemit]
      refine ⟨rfl, hsync.2.1, Or.inr ⟨lr2, dl, rfl, hrec2, hdd1, hdd2, ?_, rfl⟩⟩
      simp only [hst, hstop]

/-! ### Further helper lemmas -/

theorem sync_core_visited (oracle : Int → Nat → AttemptResult) (a b : Int)
    (cur : Option (List String)) :
    (sync_core oracle a b cur).2.1 = (sync_while oracle cur a b).2.1 := by
  simp only [sync_core]
  by_cases h1 : (sync_while oracle cur a b).1 = true
  · simp [h1]
  · simp only [h1, Bool.false_eq_true, if_false]
    match hgl : (sync_while oracle cur a b).2.2.getLast? with
    | none => simp
    | some lr =>
      match hem : (emit_loop ⟨a, b⟩ (sync_while oracle cur a b).2.2).2 with
      | none => simp
      | some st => simp

/-- A record can only be produced by the per-day body as a
`build_record` of a non-empty `Valute` map (no oracle hypotheses
needed). -/
theorem process_day_ok_some (oracle : Int → Nat → AttemptResult)
    (cur : Option (List String)) (d : Int) (rec : Record)
    (h : process_day oracle cur d = Except.ok (some rec)) :
    ∃ vs, vs ≠ [] ∧ rec = build_record d cur vs := by
  match ho : (make_retry (oracle d) N_RETRIES DELAY_SECONDS).outcome with
  | FetchOutcome.noData =>
    rw [show process_day oracle cur d = Except.ok none from
      by simp [process_day, ho]] at h
    simp at h
  | FetchOutcome.exhausted =>
    rw [show process_day oracle cur d = Except.ok none from
      by simp [process_day, ho]] at h
    simp at h
  | FetchOutcome.success r =>
    match hb : r.body with
    | JsonBody.parseError =>
      rw [show process_day oracle cur d = Except.error () from
        by simp [process_day, ho, hb]] at h
      simp at h
    | JsonBody.noValute =>
      rw [show process_day oracle cur d = Except.ok none from
        by simp [process_day, ho, hb]] at h
      simp at h
    | JsonBody.valute vs =>
      by_cases hvs : vs.isEmpty
      · rw [show process_day oracle cur d = Except.ok none from
          by simp [process_day, ho, hb, hvs]] at h
        simp at h
      · rw [show process_day oracle cur d =
            Except.ok (some (build_record d cur vs)) from
          by simp [process_day, ho, hb, hvs]] at h
        simp only [Except.ok.injEq, Option.some.injEq] at h
        refine ⟨vs, ?_, h.symm⟩
        intro hnil
        exact hvs (by simp [hnil])

theorem sync_go_records_from_build (oracle : Int → Nat → AttemptResult)
    (cur : Option (List String)) (stop : Int) :
    ∀ fuel (d : Int) r, r ∈ (sync_go oracle cur stop fuel d).2.2 →
      ∃ dd vs, vs ≠ [] ∧ r = build_record dd cur vs := by
  intro fuel
  induction fuel with
  | zero =>
    intro d r hr
    simp [sync_go_zero] at hr
  | succ fuel ih =>
    intro d r hr
    by_cases hd : d ≤ stop
    · rw [sync_go_step oracle cur stop fuel d hd] at hr
      match hpd : process_day oracle cur d with
      | Except.error e => rw [hpd] at hr; simp at hr
      | Except.ok none =>
        rw [hpd] at hr
        exact ih (d + 1) r hr
      | Except.ok (some rec) =>
        rw [hpd] at hr
        rcases List.mem_cons.mp hr with h | h
        · obtain ⟨vs, hvs, hrec⟩ := process_day_ok_some oracle cur d rec hpd
          exact ⟨d, vs, hvs, h ▸ hrec⟩
        · exact ih (d + 1) r h
    · rw [sync_go_stop oracle cur stop fuel d hd] at hr
      simp at hr

theorem emit_loop_msgs_sub :
    ∀ (data : List Record) (st : RunState) (m : Msg),
      m ∈ (emit_loop st data).1 → ∃ r ∈ data, m = Msg.record r := by
  intro data
  induction data with
  | nil => intro st m hm; simp [emit_loop] at hm
  | cons r rest ih =>
    intro st m hm
    match hdr : recDate r with
    | some dr =>
      simp only [emit_loop, hdr] at hm
      rcases List.mem_cons.mp hm with h | h
      · exact ⟨r, List.mem_cons_self r rest, h⟩
      · obtain ⟨r2, hr2, hm2⟩ := ih ⟨dr + 1, st.date_stop⟩ m h
        exact ⟨r2, List.mem_cons_of_mem _ hr2, hm2⟩
    | none =>
      simp only [emit_loop, hdr, List.mem_singleton] at hm
      exact ⟨r, List.mem_cons_self r rest, hm⟩

/-- Every record message written by a run is one of the accumulated
records (no oracle hypotheses needed). -/
theorem sync_core_record_msgs (oracle : Int → Nat → AttemptResult)
    (a b : Int) (cur : Option (List String)) (r : Record)
    (h : Msg.record r ∈ (sync_core oracle a b cur).2.2.1) :
    r ∈ (sync_while oracle cur a b).2.2 := by
  revert h
  simp only [sync_core]
  by_cases h1 : (sync_while oracle cur a b).1 = true
  · simp [h1]
  · simp only [h1, Bool.false_eq_true, if_false]
    match hgl : (sync_while oracle cur a b).2.2.getLast? with
    | none => simp
    | some lr =>
      match hem : (emit_loop ⟨a, b⟩ (sync_while oracle cur a b).2.2).2 with
      | none =>
        intro h
        simp only [List.mem_cons] at h
        rcases h with h | h
        · exact absurd h (by simp)
        · obtain ⟨r2, hr2, hm2⟩ :=
            emit_loop_msgs_sub (sync_while oracle cur a b).2.2 ⟨a, b⟩ _ h
          cases hm2
          exact hr2
      | some st =>
        intro h
        simp only [List.mem_cons, List.mem_append,
          List.mem_singleton] at h
        rcases h with h | h | h
        · exact absurd h (by simp)
        · obtain ⟨r2, hr2, hm2⟩ :=
            emit_loop_msgs_sub (sync_while oracle cur a b).2.2 ⟨a, b⟩ _ h
          cases hm2
          exact hr2
        · exact absurd h (by simp)

/-! ### Empty filter equals no filter -/

theorem build_record_cur_empty (d : Int) (vs : List (String × ValuteEntry)) :
    build_record d (some []) vs = build_record d none vs := rfl

theorem process_day_cur_empty (oracle : Int → Nat → AttemptResult) (d : Int) :
    process_day oracle (some []) d = process_day oracle none d := rfl

theorem sync_go_cur_empty (oracle : Int → Nat → AttemptResult) (stop : Int) :
    ∀ fuel (d : Int),
      sync_go oracle (some []) stop fuel d = sync_go oracle none stop fuel d := by
  intro fuel
  induction fuel with
  | zero => intro d; rfl
  | succ fuel ih =>
    intro d
    by_cases hd : d ≤ stop
    · rw [sync_go_step oracle (some []) stop fuel d hd,
        sync_go_step oracle none stop fuel d hd,
        process_day_cur_empty oracle d, ih (d + 1)]
    · rw [sync_go_stop oracle (some []) stop fuel d hd,
        sync_go_stop oracle none stop fuel d hd]

theorem sync_while_cur_empty (oracle : Int → Nat → AttemptResult)
    (a b : Int) :
    sync_while oracle (some []) a b = sync_while oracle none a b := by
  unfold sync_while
  exact sync_go_cur_empty oracle b _ a

theorem sync_core_cur_empty (oracle : Int → Nat → AttemptResult)
    (a b : Int) :
    sync_core oracle a b (some []) = sync_core oracle a b none := by
  simp only [sync_core, sync_while_cur_empty]

/-! ### Sample network behaviours used by the witnesses -/

/-- A one-currency `Valute` map as in the endpoint documentation. -/
def usd_valute : List (String × ValuteEntry) :=
  [("USD", ⟨some 99, some 1⟩)]

/-- A successful response carrying `usd_valute`. -/
def success_resp : Response := ⟨200, false, JsonBody.valute usd_valute⟩

/-- A network that always answers successfully with `usd_valute`. -/
def success_oracle : Int → Nat → AttemptResult :=
  fun _ _ => AttemptResult.resp success_resp

/-- A network whose every request raises a transport exception. -/
def fail_oracle : Int → Nat → AttemptResult :=
  fun _ _ => AttemptResult.exn

/-- A network that answers 200 without the marker but with a body that
is not valid JSON. -/
def bad_json_oracle : Int → Nat → AttemptResult :=
  fun _ _ => AttemptResult.resp ⟨200, false, JsonBody.parseError⟩

theorem success_oracle_parses : OracleParses success_oracle := by
  intro d i r h
  cases h
  intro _ _
  decide

theorem success_oracle_codes : OracleCodes success_oracle := by
  intro d i r h
  cases h
  intro vs hb
  cases hb
  decide

theorem fail_oracle_parses : OracleParses fail_oracle :=
  fun _ _ _ h => nomatch h

theorem fail_oracle_codes : OracleCodes fail_oracle :=
  fun _ _ _ h => nomatch h

theorem usd_filter_codes : FilterCodes (some ["USD"]) := by
  intro c hc
  simp only [List.mem_singleton] at hc
  subst hc
  decide

/-! ### Claim theorems -/

/-- C1: every attempt of the `make_retry` loop that receives a response
is classified into exactly one of three outcomes.  If the response body
contains the marker text, the loop returns `NoDataForDate` (Python
`None`) immediately regardless of HTTP status, making no further
attempt and sleeping no delay; if the status is 200 and the marker is
absent, the loop returns the response as a terminal success; if the
status is not 200 and the marker is absent, the attempt is retryable:
the loop sleeps the backoff delay and continues with the next attempt
index. -/
theorem c1_fetch_classification (fetch : Nat → AttemptResult)
    (ds retry fuel : Nat) (r : Response)
    (hfetch : fetch retry = AttemptResult.resp r) :
    (r.hasMarker = true →
      make_retry_go fetch ds retry (fuel + 1) =
        ⟨FetchOutcome.noData, 1, []⟩) ∧
    (r.hasMarker = false → r.status_code = 200 →
      make_retry_go fetch ds retry (fuel + 1) =
        ⟨FetchOutcome.success r, 1, []⟩) ∧
    (r.hasMarker = false → r.status_code ≠ 200 →
      make_retry_go fetch ds retry (fuel + 1) =
        ⟨(make_retry_go fetch ds (retry + 1) fuel).outcome,
         (make_retry_go fetch ds (retry + 1) fuel).attempts + 1,
         ds * 2 ^ retry :: (make_retry_go fetch ds (retry + 1) fuel).delays⟩) :=
  ⟨fun hm => make_retry_go_marker fetch ds retry fuel r hfetch hm,
   fun hm hs => make_retry_go_success_resp fetch ds retry fuel r hfetch hm hs,
   fun hm hs =>
     make_retry_go_retryable_resp fetch ds retry fuel r hfetch ⟨hs, hm⟩⟩

/-- Witness for C1 at a concrete attempt: a non-200 response carrying
the marker terminates the whole 10-attempt loop at once with
`NoDataForDate`. -/
theorem c1_fetch_classification_witness :
    make_retry_go (fun _ => AttemptResult.resp ⟨404, true, JsonBody.noValute⟩)
        10 0 10 = ⟨FetchOutcome.noData, 1, []⟩ :=
  (c1_fetch_classification
    (fun _ => AttemptResult.resp ⟨404, true, JsonBody.noValute⟩)
    10 0 9 ⟨404, true, JsonBody.noValute⟩ rfl).1 rfl

/-- C2: the fetcher makes at most `N_RETRIES = 10` attempts per date;
the delays slept are exactly `DELAY_SECONDS * 2 ^ attempt_index` with
the index zero-based (no jitter, no cap); if all 10 attempts are
retryable the loop returns `Exhausted` after exactly 10 attempts and
the delays 10, 20, ..., 5120; and the caller treats an exhausted date
as having no record. -/
theorem c2_retry_policy (fetch : Nat → AttemptResult) :
    (make_retry fetch N_RETRIES DELAY_SECONDS).attempts ≤ 10 ∧
    (make_retry fetch N_RETRIES DELAY_SECONDS).delays =
      (List.range
        (make_retry fetch N_RETRIES DELAY_SECONDS).delays.length).map
        (fun i => DELAY_SECONDS * 2 ^ i) ∧
    ((∀ i, i < 10 → retryable_attempt (fetch i) = true) →
      make_retry fetch N_RETRIES DELAY_SECONDS =
        ⟨FetchOutcome.exhausted, 10,
          [10, 20, 40, 80, 160, 320, 640, 1280, 2560, 5120]⟩) ∧
    (∀ (oracle : Int → Nat → AttemptResult) cur (d : Int),
      (make_retry (oracle d) N_RETRIES DELAY_SECONDS).outcome =
        FetchOutcome.exhausted →
      process_day oracle cur d = Except.ok none) := by
  refine ⟨?_, ?_, ?_, ?_⟩
  · exact make_retry_go_attempts_le fetch DELAY_SECONDS N_RETRIES 0
  · have h := make_retry_go_delays_shape fetch DELAY_SECONDS N_RETRIES 0
    simp only [Nat.zero_add] at h
    exact h
  · intro hall
    have h := make_retry_go_exhausted fetch DELAY_SECONDS N_RETRIES 0
      (fun i _ h2 => hall i (by simpa [N_RETRIES] using h2))
    unfold make_retry
    rw [h]
    decide
  · intro oracle cur d h
    simp [process_day, h]

/-- Witness for C2: a network that always raises exhausts all 10
attempts with the exact delay schedule, and the day yields no record. -/
theorem c2_retry_policy_witness :
    make_retry (fun _ => AttemptResult.exn) N_RETRIES DELAY_SECONDS =
      ⟨FetchOutcome.exhausted, 10,
        [10, 20, 40, 80, 160, 320, 640, 1280, 2560, 5120]⟩ ∧
    process_day fail_oracle none 0 = Except.ok none :=
  ⟨(c2_retry_policy (fun _ => AttemptResult.exn)).2.2.1 (by decide),
   (c2_retry_policy (fun _ => AttemptResult.exn)).2.2.2 fail_oracle none 0
     (by decide)⟩

/-- C3: under any network whose successful bodies parse as JSON, the
driver visits exactly the dates of the inclusive range
`[date_start, date_stop]`, in order, the i-th visited date being
`date_start + i` (each date exactly once, strictly increasing by one
day); and when `date_start > date_stop` no date is fetched and no
stream message is emitted. -/
theorem c3_range_iteration (oracle : Int → Nat → AttemptResult)
    (date_start date_stop : Int) (currencies : Option (List String))
    (hp : OracleParses oracle) :
    (do_sync oracle date_start date_stop currencies).visited.length =
      (date_stop + 1 - date_start).toNat ∧
    (∀ i (hi : i <
        (do_sync oracle date_start date_stop currencies).visited.length),
      (do_sync oracle date_start date_stop currencies).visited.get ⟨i, hi⟩ =
        date_start + (i : Int)) ∧
    (date_start > date_stop →
      (do_sync oracle date_start date_stop currencies).visited = [] ∧
      (do_sync oracle date_start date_stop currencies).msgs = []) := by
  have hsync := sync_go_spec oracle (validate_currencies currencies).1
    date_stop hp ((date_stop + 1 - date_start).toNat) date_start rfl
  have hvis : (do_sync oracle date_start date_stop currencies).visited =
      (List.range ((date_stop + 1 - date_start).toNat)).map
        (fun i : Nat => date_start + (i : Int)) := by
    show (sync_core oracle date_start date_stop
      (validate_currencies currencies).1).2.1 = _
    rw [sync_core_visited]
    exact hsync.2.1
  refine ⟨?_, ?_, ?_⟩
  · rw [hvis]
    simp
  · intro i hi
    have hget := List.get_of_eq hvis ⟨i, hi⟩
    rw [hget]
    simp
  · intro hgt
    have h0 : (date_stop + 1 - date_start).toNat = 0 := by omega
    have hempty : sync_while oracle (validate_currencies currencies).1
        date_start date_stop = (false, [], []) := by
      unfold sync_while
      rw [h0]
      exact sync_go_zero oracle (validate_currencies currencies).1
        date_stop date_start
    constructor
    · rw [hvis, h0]
      simp
    · show (sync_core oracle date_start date_stop
        (validate_currencies currencies).1).2.2.1 = []
      rw [sync_core_of_empty oracle date_start date_stop
        (validate_currencies currencies).1 (by rw [hempty]) (by rw [hempty])]

/-- Witness for C3: an always-failing network over the two-day range
0..1 still visits both days. -/
theorem c3_range_iteration_witness :
    (do_sync fail_oracle 0 1 none).visited.length = 2 :=
  (c3_range_iteration fail_oracle 0 1 none fail_oracle_parses).1

/-- C4: for a day whose fetch succeeds with a non-empty `Valute` map,
the built record has `date` equal to that day's date; with a filter of
currency codes, `record[C]` is the snapshot's `Value` for `C` (as read
by `.get`, so null when absent) and `record[C + "_Nominal"]` the
snapshot's `Nominal`, with both keys explicitly null when `C` is absent
from the day's snapshot; with no (or an empty) filter the same holds
for each currency of the snapshot. -/
theorem c4_record_fields (oracle : Int → Nat → AttemptResult)
    (cur : Option (List String)) (d : Int) (r : Response)
    (vs : List (String × ValuteEntry))
    (hout : (make_retry (oracle d) N_RETRIES DELAY_SECONDS).outcome =
      FetchOutcome.success r)
    (hbody : r.body = JsonBody.valute vs)
    (hne : vs ≠ [])
    (hcur : ∀ l, cur = some l → ∀ c ∈ l, c.length = 3)
    (hkeys : ∀ k ∈ vs.map Prod.fst, k.length = 3) :
    process_day oracle cur d = Except.ok (some (build_record d cur vs)) ∧
    lookupKey (build_record d cur vs) "date" = some (RVal.vdate d) ∧
    (∀ l, cur = some l → ∀ c ∈ l,
      lookupKey (build_record d cur vs) c = some (getVal (lookupKey vs c)) ∧
      lookupKey (build_record d cur vs) (c ++ "_Nominal") =
        some (getNom (lookupKey vs c)) ∧
      (lookupKey vs c = none →
        lookupKey (build_record d cur vs) c = some RVal.null ∧
        lookupKey (build_record d cur vs) (c ++ "_Nominal") =
          some RVal.null)) ∧
    ((cur = none ∨ cur = some []) → ∀ k ∈ vs.map Prod.fst,
      lookupKey (build_record d cur vs) k = some (getVal (lookupKey vs k)) ∧
      lookupKey (build_record d cur vs) (k ++ "_Nominal") =
        some (getNom (lookupKey vs k))) := by
  have hvse : vs.isEmpty = false := by
    cases vs with
    | nil => exact absurd rfl hne
    | cons p ps => rfl
  refine ⟨by simp [process_day, hout, hbody, hvse],
    build_record_date d cur vs hcur hkeys, ?_, ?_⟩
  · intro l hl c hc
    subst hl
    cases l with
    | nil => simp at hc
    | cons c0 cs =>
      have hm := build_record_filter d c0 cs vs (hcur _ rfl) c hc
      refine ⟨hm.1, hm.2, fun habs => ⟨?_, ?_⟩⟩
      · rw [hm.1, habs]
        rfl
      · rw [hm.2, habs]
        rfl
  · intro hnf k hk
    exact build_record_all d cur vs hnf hkeys k hk

/-- Witness for C4 on the documented USD snapshot with filter
`["USD"]`. -/
theorem c4_record_fields_witness :
    process_day success_oracle (some ["USD"]) 0 =
      Except.ok (some (build_record 0 (some ["USD"]) usd_valute)) ∧
    lookupKey (build_record 0 (some ["USD"]) usd_valute) "date" =
      some (RVal.vdate 0) :=
  ⟨(c4_record_fields success_oracle (some ["USD"]) 0 success_resp usd_valute
      rfl rfl (by decide)
      (fun l hl => by cases hl; exact usd_filter_codes) (by decide)).1,
   (c4_record_fields success_oracle (some ["USD"]) 0 success_resp usd_valute
      rfl rfl (by decide)
      (fun l hl => by cases hl; exact usd_filter_codes) (by decide)).2.1⟩

/-- C5: when at least one record was accumulated, the single state
message is the last message of the stream, after all records; its
`date_start` is one day after the date of the last emitted record, and
its `date_stop` is the original `date_stop` plus one day. -/
theorem c5_state_emission (oracle : Int → Nat → AttemptResult)
    (date_start date_stop : Int) (cur : Option (List String))
    (hp : OracleParses oracle) (hk : OracleCodes oracle)
    (hc : FilterCodes cur) (lr : Record)
    (hlast : (sync_while oracle (validate_currencies cur).1
      date_start date_stop).2.2.getLast? = some lr) :
    ∃ dl, recDate lr = some dl ∧
      (do_sync oracle date_start date_stop cur).msgs =
        Msg.schema (make_schema lr) ::
          ((sync_while oracle (validate_currencies cur).1
            date_start date_stop).2.2.map Msg.record ++
            [Msg.state ⟨dl + 1, date_stop + 1⟩]) ∧
      (do_sync oracle date_start date_stop cur).msgs.countP isStateMsg = 1 := by
  have spec := sync_core_spec oracle date_start date_stop
    (validate_currencies cur).1 hp hk (filter_codes_validate cur hc)
  rcases spec.2.2 with ⟨hnil, _, _⟩ | ⟨lr2, dl, hl2, hrec, _, _, hmsgs, _⟩
  · rw [hnil] at hlast
    simp at hlast
  · have hlr : lr2 = lr := by
      rw [hl2] at hlast
      exact Option.some.inj hlast
    subst hlr
    refine ⟨dl, hrec, hmsgs, ?_⟩
    show (sync_core oracle date_start date_stop
      (validate_currencies cur).1).2.2.1.countP isStateMsg = 1
    rw [hmsgs]
    exact countP_state_of_stream _ _ _

/-- Witness for C5: a one-day run with one USD record emits
schema, the record, then exactly one state message pointing one day
past the record. -/
theorem c5_state_emission_witness :
    ∃ dl, recDate (build_record 0 (some ["USD"]) usd_valute) = some dl ∧
      (do_sync success_oracle 0 0 (some ["USD"])).msgs =
        Msg.schema (make_schema (build_record 0 (some ["USD"]) usd_valute)) ::
          ((sync_while success_oracle
            (validate_currencies (some ["USD"])).1 0 0).2.2.map Msg.record ++
            [Msg.state ⟨dl + 1, 0 + 1⟩]) ∧
      (do_sync success_oracle 0 0 (some ["USD"])).msgs.countP isStateMsg = 1 :=
  c5_state_emission success_oracle 0 0 (some ["USD"]) success_oracle_parses
    success_oracle_codes usd_filter_codes _ (by decide)

/-- C6: when at least one record was accumulated, the schema is
`make_schema` of the last accumulated record only: it declares `date`
as a date-formatted string, every other key of that record as nullable
number, and nothing beyond `date` and that record's keys; it is emitted
exactly once, as the first message, before any record. -/
theorem c6_schema_derivation (oracle : Int → Nat → AttemptResult)
    (date_start date_stop : Int) (cur : Option (List String))
    (hp : OracleParses oracle) (hk : OracleCodes oracle)
    (hc : FilterCodes cur) (lr : Record)
    (hlast : (sync_while oracle (validate_currencies cur).1
      date_start date_stop).2.2.getLast? = some lr) :
    ∃ st, (do_sync oracle date_start date_stop cur).msgs =
        Msg.schema (make_schema lr) ::
          ((sync_while oracle (validate_currencies cur).1
            date_start date_stop).2.2.map Msg.record ++ [Msg.state st]) ∧
      (do_sync oracle date_start date_stop cur).msgs.countP isSchemaMsg = 1 ∧
      lookupKey (make_schema lr).properties "date" = some SType.dateString ∧
      (∀ k ∈ lr.map Prod.fst, k ≠ "date" →
        lookupKey (make_schema lr).properties k =
          some SType.nullableNumber) ∧
      (∀ k v, lookupKey (make_schema lr).properties k = some v →
        k = "date" ∨ k ∈ lr.map Prod.fst) := by
  have spec := sync_core_spec oracle date_start date_stop
    (validate_currencies cur).1 hp hk (filter_codes_validate cur hc)
  rcases spec.2.2 with ⟨hnil, _, _⟩ | ⟨lr2, dl, hl2, hrec, _, _, hmsgs, _⟩
  · rw [hnil] at hlast
    simp at hlast
  · have hlr : lr2 = lr := by
      rw [hl2] at hlast
      exact Option.some.inj hlast
    subst hlr
    refine ⟨⟨dl + 1, date_stop + 1⟩, hmsgs, ?_,
      make_schema_date _, fun k hk2 hne => make_schema_key _ k hk2 hne,
      fun k v hv => make_schema_sub _ k v hv⟩
    show (sync_core oracle date_start date_stop
      (validate_currencies cur).1).2.2.1.countP isSchemaMsg = 1
    rw [hmsgs]
    exact countP_schema_of_stream _ _ _

/-- Witness for C6 on the one-day USD run. -/
theorem c6_schema_derivation_witness :
    ∃ st, (do_sync success_oracle 0 0 (some ["USD"])).msgs =
        Msg.schema (make_schema (build_record 0 (some ["USD"]) usd_valute)) ::
          ((sync_while success_oracle
            (validate_currencies (some ["USD"])).1 0 0).2.2.map Msg.record ++
            [Msg.state st]) ∧
      (do_sync success_oracle 0 0 (some ["USD"])).msgs.countP
        isSchemaMsg = 1 ∧
      lookupKey (make_schema (build_record 0 (some ["USD"])
        usd_valute)).properties "date" = some SType.dateString ∧
      (∀ k ∈ (build_record 0 (some ["USD"]) usd_valute).map Prod.fst,
        k ≠ "date" →
        lookupKey (make_schema (build_record 0 (some ["USD"])
          usd_valute)).properties k = some SType.nullableNumber) ∧
      (∀ k v, lookupKey (make_schema (build_record 0 (some ["USD"])
          usd_valute)).properties k = some v →
        k = "date" ∨
          k ∈ (build_record 0 (some ["USD"]) usd_valute).map Prod.fst) :=
  c6_schema_derivation success_oracle 0 0 (some ["USD"])
    success_oracle_parses success_oracle_codes usd_filter_codes _ (by decide)

/-- C7: when the while loop completes with zero accumulated records,
the run emits no stream message at all (no schema, no record, no state)
and logs only the "nothing done" completion message. -/
theorem c7_nothing_done (oracle : Int → Nat → AttemptResult)
    (date_start date_stop : Int) (cur : Option (List String))
    (h1 : (sync_while oracle (validate_currencies cur).1
      date_start date_stop).1 = false)
    (h2 : (sync_while oracle (validate_currencies cur).1
      date_start date_stop).2.2 = []) :
    (do_sync oracle date_start date_stop cur).msgs = [] ∧
    (do_sync oracle date_start date_stop cur).message =
      some nothing_done_message := by
  have hcore := sync_core_of_empty oracle date_start date_stop
    (validate_currencies cur).1 h1 h2
  constructor
  · show (sync_core oracle date_start date_stop
      (validate_currencies cur).1).2.2.1 = []
    rw [hcore]
  · show (sync_core oracle date_start date_stop
      (validate_currencies cur).1).2.2.2 = some nothing_done_message
    rw [hcore]

/-- Witness for C7: all days of the range 0..1 exhaust their retries,
so nothing is emitted and the "nothing done" message is logged. -/
theorem c7_nothing_done_witness :
    (do_sync fail_oracle 0 1 none).msgs = [] ∧
    (do_sync fail_oracle 0 1 none).message = some nothing_done_message :=
  c7_nothing_done fail_oracle 0 1 none (by decide) (by decide)

/-- Counterexample to C8 as stated: with well-formed date boundaries,
a single status-200, marker-free response whose body is not valid JSON
makes `do_sync` raise (`response.json()` at line 125 propagates), so
`do_sync` does not absorb every response-body condition. -/
theorem c8_counterexample :
    (do_sync bad_json_oracle 0 0 none).raised = true := by decide

/-- C8 (amended): for well-formed date boundaries, `do_sync` never
raises provided every status-200, marker-free response body parses as
JSON whose `Valute` map is keyed by currency codes and the filter holds
only currency codes; the run then also always produces a completion
message. -/
theorem c8_no_raise (oracle : Int → Nat → AttemptResult)
    (date_start date_stop : Int) (cur : Option (List String))
    (hp : OracleParses oracle) (hk : OracleCodes oracle)
    (hc : FilterCodes cur) :
    (do_sync oracle date_start date_stop cur).raised = false ∧
    (do_sync oracle date_start date_stop cur).message.isSome = true := by
  have spec := sync_core_spec oracle date_start date_stop
    (validate_currencies cur).1 hp hk (filter_codes_validate cur hc)
  refine ⟨spec.1, ?_⟩
  show ((sync_core oracle date_start date_stop
    (validate_currencies cur).1).2.2.2).isSome = true
  rcases spec.2.2 with ⟨_, _, hmsg⟩ | ⟨_, _, _, _, _, _, _, hmsg⟩ <;>
    simp [hmsg]

/-- Witness for the amended C8: an always-failing network completes
without raising, with a completion message. -/
theorem c8_no_raise_witness :
    (do_sync fail_oracle 0 1 none).raised = false ∧
    (do_sync fail_oracle 0 1 none).message.isSome = true :=
  c8_no_raise fail_oracle 0 1 none fail_oracle_parses fail_oracle_codes
    trivial

/-- C9: an empty `currencies` list passes the is-a-list check (no
warning, not coerced to `None`), and the whole run behaves exactly as
with no filter at all: records are built from all currencies of each
day's snapshot, so a record never consists of the `date` field alone. -/
theorem c9_empty_filter (oracle : Int → Nat → AttemptResult)
    (date_start date_stop : Int) :
    validate_currencies (some []) = (some [], false) ∧
    (do_sync oracle date_start date_stop (some [])).warnedCurrencies =
      false ∧
    (do_sync oracle date_start date_stop (some [])).raised =
      (do_sync oracle date_start date_stop none).raised ∧
    (do_sync oracle date_start date_stop (some [])).visited =
      (do_sync oracle date_start date_stop none).visited ∧
    (do_sync oracle date_start date_stop (some [])).msgs =
      (do_sync oracle date_start date_stop none).msgs ∧
    (do_sync oracle date_start date_stop (some [])).message =
      (do_sync oracle date_start date_stop none).message ∧
    (∀ (d : Int) vs, build_record d (some []) vs = build_record d none vs) ∧
    (∀ r, Msg.record r ∈ (do_sync oracle date_start date_stop (some [])).msgs →
      ∃ k, (lookupKey r k).isSome ∧ k ≠ "date") := by
  have hcore := sync_core_cur_empty oracle date_start date_stop
  refine ⟨rfl, rfl, ?_, ?_, ?_, ?_,
    fun d vs => build_record_cur_empty d vs, ?_⟩
  · show (sync_core oracle date_start date_stop (some [])).1 =
      (sync_core oracle date_start date_stop none).1
    rw [hcore]
  · show (sync_core oracle date_start date_stop (some [])).2.1 =
      (sync_core oracle date_start date_stop none).2.1
    rw [hcore]
  · show (sync_core oracle date_start date_stop (some [])).2.2.1 =
      (sync_core oracle date_start date_stop none).2.2.1
    rw [hcore]
  · show (sync_core oracle date_start date_stop (some [])).2.2.2 =
      (sync_core oracle date_start date_stop none).2.2.2
    rw [hcore]
  · intro r hr
    have hmem := sync_core_record_msgs oracle date_start date_stop
      (some []) r hr
    obtain ⟨dd, vs, hvs, hrec⟩ := sync_go_records_from_build oracle
      (some []) date_stop _ date_start r hmem
    subst hrec
    exact build_record_extra_key dd (some []) vs hvs

/-- Witness for C9: on the one-day USD run with an empty filter the
emitted record carries a key besides `date`. -/
theorem c9_empty_filter_witness :
    ∃ k, (lookupKey (build_record 0 (some []) usd_valute) k).isSome ∧
      k ≠ "date" :=
  (c9_empty_filter success_oracle 0 0).2.2.2.2.2.2.2
    (build_record 0 (some []) usd_valute) (by decide)

/-- C10: every state message emitted by a run (under the well-behaved
network and filter of the data model) satisfies
`date_start ≤ date_stop`: its `date_start` is one day after the last
accumulated record's date, that date is at most the original
`date_stop`, and its `date_stop` is the original `date_stop` plus
one day. -/
theorem c10_state_invariant (oracle : Int → Nat → AttemptResult)
    (date_start date_stop : Int) (cur : Option (List String))
    (hp : OracleParses oracle) (hk : OracleCodes oracle)
    (hc : FilterCodes cur) :
    ∀ st, Msg.state st ∈ (do_sync oracle date_start date_stop cur).msgs →
      st.date_start ≤ st.date_stop ∧
      st.date_stop = date_stop + 1 ∧
      ∃ lr dl, (sync_while oracle (validate_currencies cur).1
          date_start date_stop).2.2.getLast? = some lr ∧
        recDate lr = some dl ∧ st.date_start = dl + 1 ∧ dl ≤ date_stop := by
  intro st hst
  have spec := sync_core_spec oracle date_start date_stop
    (validate_currencies cur).1 hp hk (filter_codes_validate cur hc)
  rcases spec.2.2 with ⟨_, hmsg, _⟩ | ⟨lr, dl, hl, hrec, _, hdl2, hmsgs, _⟩
  · rw [show (do_sync oracle date_start date_stop cur).msgs =
      (sync_core oracle date_start date_stop
        (validate_currencies cur).1).2.2.1 from rfl, hmsg] at hst
    simp at hst
  · rw [show (do_sync oracle date_start date_stop cur).msgs =
      (sync_core oracle date_start date_stop
        (validate_currencies cur).1).2.2.1 from rfl, hmsgs] at hst
    simp at hst
    subst hst
    exact ⟨by simp; omega, rfl, lr, dl, hl, hrec, rfl, hdl2⟩

/-- Witness for C10 on the one-day USD run: the emitted state is
ordered. -/
theorem c10_state_invariant_witness :
    (⟨(1 : Int), (1 : Int)⟩ : RunState).date_start ≤
      (⟨1, 1⟩ : RunState).date_stop :=
  (c10_state_invariant success_oracle 0 0 none success_oracle_parses
    success_oracle_codes trivial ⟨1, 1⟩ (by decide)).1

end TapCbr
